import Mathlib

/-!
Verification of the reminder-derivation core of the `logseq-people-manager`
plugin (`src/index.ts`), shallowly embedded in Lean 4.

All JavaScript `Date` values in the source are timezone-naive local-midnight
calendar dates (the spec fixes this semantics), so a `Date` is modelled as its
day number (count of days since 1970-01-01, negative before).  The
`new Date(year, monthIndex, day)` constructor of ECMAScript normalizes
out-of-range month and day arguments by carrying (month 12 of year Y is
January of Y+1, day 0 is the last day of the previous month, ...); the model
`jsMkDate` reproduces that via the standard civil-calendar conversions
(`civilToDays` / `daysToCivil`, proleptic Gregorian).

Layout: all definitions first, then all theorems.
-/

namespace PeopleManager

/-- A calendar date: year, 1-based month, 1-based day of month. -/
structure CivilDate where
  year : Int
  month : Int
  day : Int
  deriving DecidableEq

/-- Gregorian leap-year test. -/
def isLeap (y : Int) : Bool :=
  (y % 4 == 0 && y % 100 != 0) || y % 400 == 0

/-- Number of days in month `m` (1-based) of year `y`. -/
def daysInMonth (y m : Int) : Int :=
  if m = 2 then (if isLeap y then 29 else 28)
  else if m = 4 ∨ m = 6 ∨ m = 9 ∨ m = 11 then 30
  else 31

/-- A structurally valid calendar date. -/
def Valid (d : CivilDate) : Prop :=
  1 ≤ d.month ∧ d.month ≤ 12 ∧ 1 ≤ d.day ∧ d.day ≤ daysInMonth d.year d.month

instance (d : CivilDate) : Decidable (Valid d) := by
  unfold Valid; infer_instance

/-- Day number of the civil date (y, m, d): days since 1970-01-01.
Closed form of the standard `days_from_civil` algorithm; `m` is expected in
1..12 while `d` may be any integer (extra days carry over, as in ECMAScript
`MakeDay`). `/` and `%` on `Int` are Euclidean, hence floor/nonneg-remainder
for the positive literal divisors used here. -/
def civilToDays (y m d : Int) : Int :=
  let ys := if m ≤ 2 then y - 1 else y
  let doy := (153 * (if m ≤ 2 then m + 9 else m - 3) + 2) / 5 + d - 1
  365 * ys + ys / 4 - ys / 100 + ys / 400 + doy - 719468

/-- Inverse conversion: the civil date of a day number (standard
`civil_from_days` algorithm). -/
def daysToCivil (z : Int) : CivilDate :=
  let z' := z + 719468
  let era := z' / 146097
  let doe := z' % 146097
  let yoe := (doe - doe / 1460 + doe / 36524 - doe / 146096) / 365
  let y := yoe + era * 400
  let doy := doe - (365 * yoe + yoe / 4 - yoe / 100)
  let mp := (5 * doy + 2) / 153
  let d := doy - (153 * mp + 2) / 5 + 1
  let m := if mp < 10 then mp + 3 else mp - 9
  ⟨if m ≤ 2 then y + 1 else y, m, d⟩

/-- Day number of `new Date(y, m, d)` (ECMAScript `MakeDay`): the month
argument `m` is 0-based and may lie outside 0..11 (it carries into the year);
the day argument carries into the month. -/
def jsMkDate (y m d : Int) : Int :=
  civilToDays (y + m / 12) (m % 12 + 1) d

/-- Day number after `date.setFullYear(y)` on the date with day number `z`:
re-makes the date from the new year and the (normalized) month index and
day-of-month of `z`. -/
def jsSetFullYear (z y : Int) : Int :=
  jsMkDate y ((daysToCivil z).month - 1) (daysToCivil z).day

/-- Day number of a civil date record. -/
def toDays (d : CivilDate) : Int :=
  civilToDays d.year d.month d.day

/-!
Date utilities of `src/index.ts` (lines 94-151).  `today` is the current
local calendar date (the source normalizes it to midnight with
`setHours(0,0,0,0)`); since all dates sit at local midnight, the
millisecond differences divided by 86400000 are exact integers and the
`Math.ceil` / `Math.floor` in the source are the identity, so the functions
return plain day-number differences.
-/

/-- `getDaysUntilBirthday` (index.ts:94): days from today to this year's
(month, day) occurrence of the birthday, rolled to next year (via
`setFullYear`) only when this year's occurrence is strictly before today. -/
def getDaysUntilBirthday (today birthday : CivilDate) : Int :=
  let t := toDays today
  let thisYearBirthday := jsMkDate today.year (birthday.month - 1) birthday.day
  let occ := if thisYearBirthday < t
    then jsSetFullYear thisYearBirthday (today.year + 1)
    else thisYearBirthday
  occ - t

/-- `getDaysSince` (index.ts:109): floor of (today - date) in days. -/
def getDaysSince (today date : CivilDate) : Int :=
  toDays today - toDays date

/-- `calculateAge` (index.ts:119): full years elapsed, minus one when the
birthday has not yet occurred this year.  The source compares `getMonth()`
values (0-based); the offsets cancel, so 1-based months are compared. -/
def calculateAge (today birthday : CivilDate) : Int :=
  let age := today.year - birthday.year
  let monthDiff := today.month - birthday.month
  if monthDiff < 0 ∨ (monthDiff = 0 ∧ today.day < birthday.day) then age - 1
  else age

/-- `getNextBirthdayDate` (index.ts:139): same-year occurrence if strictly
after today, otherwise (on `nextBirthday <= today`) next year's. -/
def getNextBirthdayDate (today birthday : CivilDate) : Int :=
  let t := toDays today
  let nextBirthday := jsMkDate today.year (birthday.month - 1) birthday.day
  if nextBirthday ≤ t then jsSetFullYear nextBirthday (today.year + 1)
  else nextBirthday

/-!
Stable sorting.  `Array.prototype.sort` is stable (ES2019), and both call
sites use a consistent numeric-key comparator (`a.daysUntil - b.daysUntil`
resp. `b.daysOverdue - a.daysOverdue`); every stable sort agrees on such a
comparator, so the model uses a stable insertion sort by an integer key
(descending order is obtained by negating the key).
-/

/-- Insert `x` into `l` after every element whose key is at most `key x`
(stable position for a sorted `l`). -/
def insertByKey (key : α → Int) (x : α) : List α → List α
  | [] => [x]
  | y :: ys => if key y ≤ key x then y :: insertByKey key x ys else x :: y :: ys

/-- Stable sort ascending by `key`: left fold of stable insertions. -/
def sortByKey (key : α → Int) (l : List α) : List α :=
  l.foldl (fun acc x => insertByKey key x acc) []

/-!
Data model (`Person`, `BirthdayReminder`, `ContactReminder`, index.ts:7-27)
and reminder derivation (`getUpcomingBirthdays`, `getPeopleToContact`,
index.ts:488-529).  Dates have already been normalized by the property
resolver, so the optional date fields hold civil dates.
-/

/-- Normalized person record (interface `Person`, index.ts:7). -/
structure Person where
  uuid : String
  name : String
  birthday : Option CivilDate
  lastContact : Option CivilDate
  contactFrequency : Option Int
  relationship : Option String
  email : Option String
  deriving DecidableEq

/-- Derived birthday reminder (interface `BirthdayReminder`, index.ts:17).
The source's `age` field is typed `number | null` but is always assigned a
number here. -/
structure BirthdayReminder where
  person : Person
  daysUntil : Int
  age : Int
  deriving DecidableEq

/-- Derived contact reminder (interface `ContactReminder`, index.ts:23). -/
structure ContactReminder where
  person : Person
  daysSinceContact : Int
  daysOverdue : Int
  deriving DecidableEq

/-- The birthday reminders in input order, before sorting: the loop body of
`getUpcomingBirthdays` (index.ts:491-503). -/
def birthdayRemindersPre (today : CivilDate) (people : List Person)
    (withinDays : Int) : List BirthdayReminder :=
  people.filterMap fun person =>
    match person.birthday with
    | none => none
    | some b =>
      let daysUntil := getDaysUntilBirthday today b
      if daysUntil ≤ withinDays then
        some ⟨person, daysUntil,
          if daysUntil = 0 then calculateAge today b
          else calculateAge today b + 1⟩
      else none

/-- `getUpcomingBirthdays` (index.ts:488): collect reminders for people with
a known birthday within the window, then sort ascending by `daysUntil`
(stable comparator `a.daysUntil - b.daysUntil`). -/
def getUpcomingBirthdays (today : CivilDate) (people : List Person)
    (withinDays : Int) : List BirthdayReminder :=
  sortByKey (fun r => r.daysUntil) (birthdayRemindersPre today people withinDays)

/-- The contact reminders in input order, before sorting: the loop body of
`getPeopleToContact` (index.ts:512-525).  In the source a missing
`lastContact` makes `daysSince` the float `Infinity`, so the inclusion test
`daysOverdue >= 0 || !person.lastContact` always passes and the pushed
record carries `daysSinceContact = -1` and `daysOverdue = contactFrequency`;
the match below reproduces exactly those outcomes.  A missing or zero
`contactFrequency` is falsy and skips the person. -/
def contactRemindersPre (today : CivilDate) (people : List Person) :
    List ContactReminder :=
  people.filterMap fun person =>
    match person.contactFrequency with
    | none => none
    | some freq =>
      if freq = 0 then none
      else
        match person.lastContact with
        | some lc =>
          let daysSince := getDaysSince today lc
          if daysSince - freq ≥ 0 then some ⟨person, daysSince, daysSince - freq⟩
          else none
        | none => some ⟨person, -1, freq⟩

/-- `getPeopleToContact` (index.ts:509): collect overdue/never-contacted
reminders, then sort descending by `daysOverdue` (stable comparator
`b.daysOverdue - a.daysOverdue`, modelled as ascending by the negated key). -/
def getPeopleToContact (today : CivilDate) (people : List Person) :
    List ContactReminder :=
  sortByKey (fun r => -r.daysOverdue) (contactRemindersPre today people)

/-!
Date parser, `parseBirthdayInput` (index.ts:167-258).  The anchored regular
expressions of the source are modelled by deterministic scanners over
`List Char`; because every regex alternates between disjoint character
classes (digits, separators, letters, whitespace), greedy matching with
backtracking coincides with maximal-munch scanning, so the scanners are
exact.  The final fallback `new Date(trimmed)` (implementation-defined
generic parsing) is an abstract parameter `native`.
-/

/-- Character classes of the source's regexes. -/
def digitChar (c : Char) : Bool := c.isDigit

def alphaChar (c : Char) : Bool := c.isAlpha

def wsChar (c : Char) : Bool := c.isWhitespace

/-- Separator class of the DD/MM/YYYY pattern: `[\/\-\.]`. -/
def sepEuro (c : Char) : Bool := c == '/' || c == '-' || c == '.'

/-- Separator class of the MM/DD/YYYY pattern: `[\/\-]`. -/
def sepUS (c : Char) : Bool := c == '/' || c == '-'

/-- Decimal value of a digit run (as produced by `parseInt`). -/
def digitsToInt (l : List Char) : Int :=
  l.foldl (fun a c => a * 10 + (Int.ofNat c.toNat - 48)) 0

/-- `String.prototype.trim`: strip leading and trailing whitespace. -/
def trimChars (s : List Char) : List Char :=
  ((s.dropWhile wsChar).reverse.dropWhile wsChar).reverse

/-- The month-name table of the source (index.ts:173-186), names lowercase,
values 0-based month indexes. -/
def monthTable : List (List Char × Int) :=
  [("jan".toList, 0), ("january".toList, 0),
   ("feb".toList, 1), ("february".toList, 1),
   ("mar".toList, 2), ("march".toList, 2),
   ("apr".toList, 3), ("april".toList, 3),
   ("may".toList, 4),
   ("jun".toList, 5), ("june".toList, 5),
   ("jul".toList, 6), ("july".toList, 6),
   ("aug".toList, 7), ("august".toList, 7),
   ("sep".toList, 8), ("sept".toList, 8), ("september".toList, 8),
   ("oct".toList, 9), ("october".toList, 9),
   ("nov".toList, 10), ("november".toList, 10),
   ("dec".toList, 11), ("december".toList, 11)]

/-- `months[monthStr.toLowerCase()]`. -/
def lookupMonth (w : List Char) : Option Int :=
  List.lookup (w.map Char.toLower) monthTable

/-- `^(\d{4})-(\d{1,2})-(\d{1,2})$` returning (year, month, day). -/
def matchISO (s : List Char) : Option (Int × Int × Int) :=
  let (a, r1) := s.span digitChar
  match r1 with
  | c1 :: r2 =>
    if a.length == 4 && c1 == '-' then
      let (b, r3) := r2.span digitChar
      match r3 with
      | c2 :: r4 =>
        if (b.length == 1 || b.length == 2) && c2 == '-' then
          let (c, r5) := r4.span digitChar
          if (c.length == 1 || c.length == 2) && r5.isEmpty then
            some (digitsToInt a, digitsToInt b, digitsToInt c)
          else none
        else none
      | [] => none
    else none
  | [] => none

/-- `^(\d{1,2})SEP(\d{1,2})SEP(\d{4})$` returning the three numbers in
order; each separator position independently matches the class `sep`, as in
the source's regexes. -/
def matchNumTriple (sep : Char → Bool) (s : List Char) :
    Option (Int × Int × Int) :=
  let (a, r1) := s.span digitChar
  match r1 with
  | c1 :: r2 =>
    if (a.length == 1 || a.length == 2) && sep c1 then
      let (b, r3) := r2.span digitChar
      match r3 with
      | c2 :: r4 =>
        if (b.length == 1 || b.length == 2) && sep c2 then
          let (c, r5) := r4.span digitChar
          if c.length == 4 && r5.isEmpty then
            some (digitsToInt a, digitsToInt b, digitsToInt c)
          else none
        else none
      | [] => none
    else none
  | [] => none

/-- `^(\d{1,2})\s+([a-zA-Z]+)\s+(\d{4})$` with month-name lookup, returning
(day, 0-based month index, year); a regex match with an unknown month name
yields `none` so the caller falls through, as in the source. -/
def matchDayMonthYear (s : List Char) : Option (Int × Int × Int) :=
  let (d, r1) := s.span digitChar
  if d.length == 1 || d.length == 2 then
    let (w1, r2) := r1.span wsChar
    if w1.isEmpty then none
    else
      let (al, r3) := r2.span alphaChar
      if al.isEmpty then none
      else
        let (w2, r4) := r3.span wsChar
        if w2.isEmpty then none
        else
          let (y, r5) := r4.span digitChar
          if y.length == 4 && r5.isEmpty then
            match lookupMonth al with
            | some m => some (digitsToInt d, m, digitsToInt y)
            | none => none
          else none
  else none

/-- `^([a-zA-Z]+)\s+(\d{1,2}),?\s+(\d{4})$`, returning
(0-based month index, day, year). -/
def matchMonthDayYear (s : List Char) : Option (Int × Int × Int) :=
  let (al, r1) := s.span alphaChar
  if al.isEmpty then none
  else
    let (w1, r2) := r1.span wsChar
    if w1.isEmpty then none
    else
      let (d, r3) := r2.span digitChar
      if d.length == 1 || d.length == 2 then
        let r3' := match r3 with
          | c :: rest => if c == ',' then rest else r3
          | [] => r3
        let (w2, r4) := r3'.span wsChar
        if w2.isEmpty then none
        else
          let (y, r5) := r4.span digitChar
          if y.length == 4 && r5.isEmpty then
            match lookupMonth al with
            | some m => some (m, digitsToInt d, digitsToInt y)
            | none => none
          else none
      else none

/-- `^(\d{4})\s+([a-zA-Z]+)\s+(\d{1,2})$`, returning
(year, 0-based month index, day). -/
def matchYearMonthDay (s : List Char) : Option (Int × Int × Int) :=
  let (y, r1) := s.span digitChar
  if y.length == 4 then
    let (w1, r2) := r1.span wsChar
    if w1.isEmpty then none
    else
      let (al, r3) := r2.span alphaChar
      if al.isEmpty then none
      else
        let (w2, r4) := r3.span wsChar
        if w2.isEmpty then none
        else
          let (d, r5) := r4.span digitChar
          if (d.length == 1 || d.length == 2) && r5.isEmpty then
            match lookupMonth al with
            | some m => some (digitsToInt y, m, digitsToInt d)
            | none => none
          else none
  else none

/-- `parseBirthdayInput` (index.ts:167): tries the branches in source order
and builds the `Date` with `new Date(year, monthIndex, day)` (wrapping
semantics); `native` abstracts the final `new Date(trimmed)` fallback. -/
def parseBirthdayInput (native : List Char → Option Int) (input : List Char) :
    Option Int :=
  let trimmed := trimChars input
  if trimmed.isEmpty then none
  else
    match matchISO trimmed with
    | some (y, m, d) => some (jsMkDate y (m - 1) d)
    | none =>
      match matchNumTriple sepEuro trimmed with
      | some (d, m, y) => some (jsMkDate y (m - 1) d)
      | none =>
        match matchNumTriple sepUS trimmed with
        | some (first, second, y) =>
          if first > 12 then some (jsMkDate y (second - 1) first)
          else if second > 12 then some (jsMkDate y (first - 1) second)
          else some (jsMkDate y (second - 1) first)
        | none =>
          match matchDayMonthYear trimmed with
          | some (d, mIdx, y) => some (jsMkDate y mIdx d)
          | none =>
            match matchMonthDayYear trimmed with
            | some (mIdx, d, y) => some (jsMkDate y mIdx d)
            | none =>
              match matchYearMonthDay trimmed with
              | some (y, mIdx, d) => some (jsMkDate y mIdx d)
              | none => native trimmed

/-!
Birthday-task completion detection (index.ts:1074-1198).  The bytes of the
source's extraction regex are `/\[\[([^\]]+)\]\]['']s Birthday/` — the
character class contains the straight apostrophe (twice), nothing else — and
`isBirthdayTask` checks for the straight-apostrophe substring `'s Birthday`.
`String.prototype.includes` / `startsWith` and the first-match regex search
are modelled over `List Char`; since `[^\]]+` is followed by `\]\]`,
greedy matching without backtracking (maximal munch of non-`]` characters)
is exact.
-/

/-- The straight apostrophe, the only member of the source's `['']` class. -/
def straightApos : Char := Char.ofNat 39

/-- `String.prototype.includes`: contiguous-substring test. -/
def containsSeq (pat : List Char) : List Char → Bool
  | [] => pat.isEmpty
  | c :: rest => List.isPrefixOf pat (c :: rest) || containsSeq pat rest

/-- `isBirthdayTask` (index.ts:1083): the content contains `'s Birthday`
(straight apostrophe) and `[[`. -/
def isBirthdayTask (content : List Char) : Bool :=
  containsSeq ("'s Birthday".toList) content &&
    containsSeq ("[[".toList) content

/-- One attempt of the extraction regex at the current position:
`\[\[([^\]]+)\]\]['']s Birthday`.  (`[^\]]+` is followed by `\]\]`, so the
greedy run of non-`]` characters is exact, no backtracking possible.) -/
def tryBirthdayMatch (s : List Char) : Option (List Char) :=
  match s with
  | c0 :: c1 :: rest =>
    if c0 == '[' && c1 == '[' then
      let name := rest.takeWhile (fun c => !(c == ']'))
      let rest2 := rest.dropWhile (fun c => !(c == ']'))
      if name.isEmpty then none
      else
        match rest2 with
        | d0 :: d1 :: d2 :: t =>
          if d0 == ']' && d1 == ']' && d2 == straightApos &&
              List.isPrefixOf ("s Birthday".toList) t
          then some name
          else none
        | _ => none
    else none
  | _ => none

/-- `extractBirthdayPersonName` (index.ts:1074): leftmost match of the
extraction regex, or `none`. -/
def extractBirthdayPersonName : List Char → Option (List Char)
  | [] => none
  | c :: rest =>
    match tryBirthdayMatch (c :: rest) with
    | some n => some n
    | none => extractBirthdayPersonName rest

/-- The condition under which the `onChanged` listener (index.ts:1185-1192)
invokes `handleBirthdayTaskCompleted` for a block content: it is a birthday
task, its textual state is `DONE` (content starts with `DONE`), and a person
name can be extracted. -/
def birthdayCompletionTriggers (content : List Char) : Bool :=
  isBirthdayTask content && List.isPrefixOf ("DONE".toList) content &&
    (extractBirthdayPersonName content).isSome

/-!
External store model and the task lifecycle (index.ts:535-694, 1091-1170).
The host's pages, tags, properties and blocks are modelled as a plain record
store; the collaborator calls (`getPage`, `createPage`, `addBlockTag`,
`upsertBlockProperty`, `appendBlockInPage`) become pure state updates.  The
source catches every thrown error and converts it into a structured failure
result, so the model is a total function.
-/

/-- A property value: string or number. -/
inductive PVal where
  | str (s : String)
  | num (n : Int)
  deriving DecidableEq

/-- A content block with its tags. -/
structure Block where
  content : String
  tags : List String
  deriving DecidableEq

/-- A page of the host store. -/
structure Page where
  name : String
  journal : Bool
  tags : List String
  props : List (String × PVal)
  blocks : List Block
  deriving DecidableEq

/-- The host store: the list of pages. -/
structure Store where
  pages : List Page
  deriving DecidableEq

/-- `PEOPLE_TAG_UUID` (index.ts:45). -/
def peopleTagUUID : String := "00000002-3698-7117-0000-000000000000"

/-- `TASK_TAG_UUID` (index.ts:46). -/
def taskTagUUID : String := "00000002-1282-1814-5700-000000000000"

/-- Does a page of this name exist (`logseq.Editor.getPage`)? -/
def hasPage (st : Store) (n : String) : Bool :=
  st.pages.any (fun p => p.name == n)

/-- `logseq.Editor.createPage`: append a fresh page. -/
def createPage (st : Store) (n : String) (journal : Bool) : Store :=
  { pages := st.pages ++
      [{ name := n, journal := journal, tags := [], props := [],
         blocks := [] }] }

/-- `logseq.Editor.addBlockTag` on a page. -/
def addPageTag (st : Store) (n tag : String) : Store :=
  { pages := st.pages.map fun p =>
      if p.name == n then { p with tags := p.tags ++ [tag] } else p }

/-- `logseq.Editor.upsertBlockProperty` on a page: replace any previous
value of the key and add the new one. -/
def upsertPageProp (st : Store) (n key : String) (v : PVal) : Store :=
  { pages := st.pages.map fun p =>
      if p.name == n then
        { p with props := (p.props.filter (fun kv => !(kv.1 == key))) ++
            [(key, v)] }
      else p }

/-- `appendBlockInPage` followed by `addBlockTag` on the new block. -/
def appendTaggedBlock (st : Store) (n content tag : String) : Store :=
  { pages := st.pages.map fun p =>
      if p.name == n then
        { p with blocks := p.blocks ++ [{ content := content, tags := [tag] }] }
      else p }

/-- `String(n).padStart(2, "0")` for the month/day components. -/
def pad2 (n : Int) : String :=
  if n < 10 then "0" ++ toString n else toString n

/-- `formatDateForLogseq` (index.ts:156): `YYYY-MM-DD` of the date with day
number `z` (components via the normalized accessors). -/
def formatDateForLogseq (z : Int) : String :=
  toString (daysToCivil z).year ++ "-" ++ pad2 (daysToCivil z).month ++ "-" ++
    pad2 (daysToCivil z).day

/-- `createBirthdayReminderTask` (index.ts:652): compute the next
occurrence, get or create that date's journal page, and append the
`[[name]]'s Birthday!` block tagged as a task. -/
def createBirthdayReminderTask (today : CivilDate) (personName : String)
    (birthday : CivilDate) (st : Store) : Store :=
  let journalDateStr := formatDateForLogseq (getNextBirthdayDate today birthday)
  let st1 := if hasPage st journalDateStr then st
    else createPage st journalDateStr true
  appendTaggedBlock st1 journalDateStr
    ("[[" ++ personName ++ "]]" ++ "'s Birthday!") taskTagUUID

/-- The date scheduled by `handleBirthdayTaskCompleted` (index.ts:1131-1138):
`new Date(today.getFullYear() + 1, birthday.getMonth(), birthday.getDate())`
— next year counted from the processing date, not from the completed
occurrence. -/
def nextYearBirthdayOnCompletion (today birthday : CivilDate) : Int :=
  jsMkDate (today.year + 1) (birthday.month - 1) birthday.day

/-- `handleBirthdayTaskCompleted` (index.ts:1091), after the person's
birthday has been re-resolved to `birthday`: get or create the journal page
for the computed date and append the task block. -/
def handleBirthdayTaskCompleted (today : CivilDate) (personName : String)
    (birthday : CivilDate) (st : Store) : Store :=
  let journalDateStr :=
    formatDateForLogseq (nextYearBirthdayOnCompletion today birthday)
  let st1 := if hasPage st journalDateStr then st
    else createPage st journalDateStr true
  appendTaggedBlock st1 journalDateStr
    ("[[" ++ personName ++ "]]" ++ "'s Birthday!") taskTagUUID

/-- Form data for person creation (interface `NewPersonData`, index.ts:29). -/
structure NewPersonData where
  name : String
  birthday : Option String
  relationship : Option String
  contactFrequency : Option Int
  email : Option String
  deriving DecidableEq

/-- The structured result of `createPerson`: success flag plus optional
error message. -/
structure CreateResult where
  success : Bool
  error : Option String
  deriving DecidableEq

/-- `String.prototype.trim` on `String`. -/
def jsTrim (s : String) : String :=
  ⟨trimChars s.data⟩

/-- `new Date("YYYY-MM-DD")` for the ISO date-only strings produced by
`formatDateForLogseq` (timezone-naive per the spec); non-ISO strings yield
an invalid date, modelled as `none`. -/
def isoParseDate (s : String) : Option CivilDate :=
  (matchISO s.data).map fun t => ⟨t.1, t.2.1, t.2.2⟩

/-- `createPerson` (index.ts:583): validate the name, reject duplicates,
otherwise create the page, tag it `#people`, set the provided properties
(the contact frequency only when positive — `data.contactFrequency &&
data.contactFrequency > 0`), and create the birthday reminder task when a
parseable birthday was given.  Empty strings are falsy in the source's
`if (data.x)` guards. -/
def createPerson (today : CivilDate) (data : NewPersonData) (st : Store) :
    CreateResult × Store :=
  if jsTrim data.name = "" then
    ({ success := false, error := some "Name is required" }, st)
  else
    let personName := jsTrim data.name
    if hasPage st personName then
      ({ success := false,
         error := some ("A page named \"" ++ personName ++
           "\" already exists") }, st)
    else
      let st1 := createPage st personName false
      let st2 := addPageTag st1 personName peopleTagUUID
      let st3 := match data.birthday with
        | some b => if b = "" then st2
            else upsertPageProp st2 personName "birthday-GB6GsLcK" (PVal.str b)
        | none => st2
      let st4 := match data.relationship with
        | some rel => if rel = "" then st3
            else upsertPageProp st3 personName "relationship-F2JPblxy"
              (PVal.str rel)
        | none => st3
      let st5 := match data.contactFrequency with
        | some f => if 0 < f then
            upsertPageProp st4 personName "contact-frequency-rE_86ouV"
              (PVal.num f)
          else st4
        | none => st4
      let st6 := match data.email with
        | some e => if e = "" then st5
            else upsertPageProp st5 personName "email-EYPFhTdc" (PVal.str e)
        | none => st5
      let st7 := match data.birthday with
        | some b =>
          match isoParseDate b with
          | some bd => createBirthdayReminderTask today personName bd st6
          | none => st6
        | none => st6
      ({ success := true, error := none }, st7)

/-!
Theorems.  Sanity checks of the calendar model first, then general lemmas,
then one theorem per claim (with witnesses / counterexamples).
-/

example : civilToDays 1970 1 1 = 0 := by decide
example : civilToDays 2024 6 1 = 19875 := by decide
example : daysToCivil 0 = ⟨1970, 1, 1⟩ := by decide
example : daysToCivil 19875 = ⟨2024, 6, 1⟩ := by decide
example : daysToCivil (-1) = ⟨1969, 12, 31⟩ := by decide
-- new Date(2020, 12, 13) wraps to 2021-01-13
example : daysToCivil (jsMkDate 2020 12 13) = ⟨2021, 1, 13⟩ := by decide
-- new Date(1988, 14, 4) wraps to 1989-03-04
example : daysToCivil (jsMkDate 1988 14 4) = ⟨1989, 3, 4⟩ := by decide
-- new Date(2024, 1, 29) is valid (leap year), new Date(2025, 1, 29) wraps
example : daysToCivil (jsMkDate 2024 1 29) = ⟨2024, 2, 29⟩ := by decide
example : daysToCivil (jsMkDate 2025 1 29) = ⟨2025, 3, 1⟩ := by decide

/-- The month and day produced by `daysToCivil` always lie in the calendar
ranges 1..12 and 1..31. -/
theorem daysToCivil_ranges (z : Int) :
    1 ≤ (daysToCivil z).month ∧ (daysToCivil z).month ≤ 12 ∧
    1 ≤ (daysToCivil z).day ∧ (daysToCivil z).day ≤ 31 := by
  unfold daysToCivil
  have h0 : 0 ≤ (z + 719468) % 146097 := Int.emod_nonneg _ (by decide)
  have h1 : (z + 719468) % 146097 < 146097 := Int.emod_lt_of_pos _ (by decide)
  set doe := (z + 719468) % 146097 with hdoe
  simp only []
  omega

/-- For a 1-based month in range, `new Date(y, m - 1, d)` is the plain civil
date (y, m, d) — the ECMAScript month normalization is the identity there. -/
theorem jsMkDate_eq_civil (y m d : Int) (h1 : 1 ≤ m) (h2 : m ≤ 12) :
    jsMkDate y (m - 1) d = civilToDays y m d := by
  unfold jsMkDate
  have e1 : y + (m - 1) / 12 = y := by omega
  have e2 : (m - 1) % 12 + 1 = m := by omega
  rw [e1, e2]

/-- January 1 is the earliest day number among dates of a year with month in
1..12 and day at least 1. -/
theorem civilToDays_jan1_le (y m d : Int) (h1 : 1 ≤ m) (h2 : m ≤ 12)
    (h3 : 1 ≤ d) : civilToDays y 1 1 ≤ civilToDays y m d := by
  unfold civilToDays
  interval_cases m <;> simp only [] <;> omega

/-- January 1 of year y + 1 is the day after December 31 of year y. -/
theorem civilToDays_jan1_succ (y : Int) :
    civilToDays (y + 1) 1 1 = civilToDays y 12 31 + 1 := by
  unfold civilToDays
  norm_num
  omega

/-- A valid date of year y is at most December 31 of year y. -/
theorem toDays_le_dec31 (d : CivilDate) (h : Valid d) :
    toDays d ≤ civilToDays d.year 12 31 := by
  obtain ⟨h1, h2, h3, h4⟩ := h
  unfold toDays civilToDays
  unfold daysInMonth at h4
  interval_cases hm : d.month <;> simp only [] <;> omega

/-- `setFullYear (today.year + 1)` applied to any day number lands at or
after January 1 of year `today.year + 1`. -/
theorem jsSetFullYear_ge_jan1 (z y : Int) :
    civilToDays (y + 1) 1 1 ≤ jsSetFullYear z (y + 1) := by
  obtain ⟨hm1, hm2, hd1, _⟩ := daysToCivil_ranges z
  unfold jsSetFullYear
  rw [show (daysToCivil z).month - 1 = ((daysToCivil z).month - 1 + 1) - 1 by
      ring,
    jsMkDate_eq_civil _ _ _ (by omega) (by omega)]
  have := civilToDays_jan1_le (y + 1) ((daysToCivil z).month - 1 + 1)
    (daysToCivil z).day (by omega) (by omega) (by omega)
  omega

theorem insertByKey_perm (key : α → Int) (x : α) (l : List α) :
    List.Perm (insertByKey key x l) (x :: l) := by
  induction l with
  | nil => exact List.Perm.refl _
  | cons y ys ih =>
    unfold insertByKey
    split
    · exact ((ih.cons y).trans (List.Perm.swap x y ys))
    · exact List.Perm.refl _

theorem mem_insertByKey (key : α → Int) (x a : α) (l : List α) :
    a ∈ insertByKey key x l ↔ a = x ∨ a ∈ l := by
  rw [(insertByKey_perm key x l).mem_iff, List.mem_cons]

theorem foldl_insertByKey_perm (key : α → Int) (l acc : List α) :
    List.Perm (l.foldl (fun acc x => insertByKey key x acc) acc)
      (acc ++ l) := by
  induction l generalizing acc with
  | nil => simp
  | cons x xs ih =>
    rw [List.foldl_cons]
    refine (ih (insertByKey key x acc)).trans ?_
    refine (List.Perm.append_right xs (insertByKey_perm key x acc)).trans ?_
    exact List.perm_middle.symm

/-- The sorted list is a permutation of the input. -/
theorem sortByKey_perm (key : α → Int) (l : List α) :
    List.Perm (sortByKey key l) l := by
  simpa using foldl_insertByKey_perm key l []

theorem mem_sortByKey (key : α → Int) (a : α) (l : List α) :
    a ∈ sortByKey key l ↔ a ∈ l :=
  (sortByKey_perm key l).mem_iff

theorem insertByKey_pairwise (key : α → Int) (x : α) (l : List α)
    (h : l.Pairwise (fun a b => key a ≤ key b)) :
    (insertByKey key x l).Pairwise (fun a b => key a ≤ key b) := by
  induction l with
  | nil => simp [insertByKey]
  | cons y ys ih =>
    rw [List.pairwise_cons] at h
    unfold insertByKey
    split
    · rename_i hle
      rw [List.pairwise_cons]
      refine ⟨?_, ih h.2⟩
      intro z hz
      rcases (mem_insertByKey key x z ys).mp hz with h1 | h2
      · subst h1; omega
      · exact h.1 z h2
    · rename_i hgt
      rw [List.pairwise_cons]
      refine ⟨?_, List.pairwise_cons.mpr h⟩
      intro z hz
      rcases List.mem_cons.mp hz with h1 | h2
      · subst h1; omega
      · have := h.1 z h2
        omega

/-- The sorted list is weakly sorted ascending by the key. -/
theorem sortByKey_pairwise (key : α → Int) (l : List α) :
    (sortByKey key l).Pairwise (fun a b => key a ≤ key b) := by
  suffices h : ∀ acc, acc.Pairwise (fun a b => key a ≤ key b) →
      (l.foldl (fun acc x => insertByKey key x acc) acc).Pairwise
        (fun a b => key a ≤ key b) from h [] (by simp)
  induction l with
  | nil => intro acc hacc; simpa using hacc
  | cons x xs ih =>
    intro acc hacc
    exact ih (insertByKey key x acc) (insertByKey_pairwise key x acc hacc)

theorem insertByKey_filter_ne (key : α → Int) (x : α) (l : List α) (k : Int)
    (hx : key x ≠ k) :
    (insertByKey key x l).filter (fun a => decide (key a = k)) =
      l.filter (fun a => decide (key a = k)) := by
  induction l with
  | nil => simp [insertByKey, hx]
  | cons y ys ih =>
    unfold insertByKey
    split
    · simp only [List.filter_cons]
      rw [ih]
    · simp only [List.filter_cons, decide_eq_true_eq, if_neg hx]

theorem insertByKey_filter_eq (key : α → Int) (x : α) (l : List α) (k : Int)
    (hl : l.Pairwise (fun a b => key a ≤ key b)) (hx : key x = k) :
    (insertByKey key x l).filter (fun a => decide (key a = k)) =
      l.filter (fun a => decide (key a = k)) ++ [x] := by
  induction l with
  | nil => simp [insertByKey, hx]
  | cons y ys ih =>
    rw [List.pairwise_cons] at hl
    unfold insertByKey
    split
    · rename_i hle
      have ihh := ih hl.2
      by_cases hy : key y = k <;> simp [List.filter_cons, hy, ihh]
    · rename_i hgt
      have hempty : (y :: ys).filter (fun a => decide (key a = k)) = [] := by
        rw [List.filter_eq_nil_iff]
        intro a ha
        simp only [decide_eq_true_eq]
        rcases List.mem_cons.mp ha with h1 | h2
        · subst h1; omega
        · have := hl.1 a h2; omega
      simp [List.filter_cons, hx, hempty]

/-- Stability: for every key value `k`, the elements of key `k` appear in the
sorted output in exactly their input order. -/
theorem sortByKey_filter (key : α → Int) (l : List α) (k : Int) :
    (sortByKey key l).filter (fun a => decide (key a = k)) =
      l.filter (fun a => decide (key a = k)) := by
  suffices h : ∀ acc, acc.Pairwise (fun a b => key a ≤ key b) →
      (l.foldl (fun acc x => insertByKey key x acc) acc).filter
          (fun a => decide (key a = k)) =
        acc.filter (fun a => decide (key a = k)) ++
          l.filter (fun a => decide (key a = k)) by
    simpa using h [] (by simp)
  induction l with
  | nil => intro acc hacc; simp
  | cons x xs ih =>
    intro acc hacc
    rw [List.foldl_cons, ih (insertByKey key x acc)
      (insertByKey_pairwise key x acc hacc)]
    by_cases hx : key x = k
    · rw [insertByKey_filter_eq key x acc k hacc hx]
      simp [List.filter_cons, hx]
    · rw [insertByKey_filter_ne key x acc k hx]
      simp [List.filter_cons, hx]

theorem mem_birthdayRemindersPre (today : CivilDate) (people : List Person)
    (w : Int) (r : BirthdayReminder) :
    r ∈ birthdayRemindersPre today people w ↔
      ∃ p ∈ people, ∃ b, p.birthday = some b ∧
        getDaysUntilBirthday today b ≤ w ∧
        r = ⟨p, getDaysUntilBirthday today b,
          if getDaysUntilBirthday today b = 0 then calculateAge today b
          else calculateAge today b + 1⟩ := by
  simp only [birthdayRemindersPre, List.mem_filterMap]
  constructor
  · rintro ⟨p, hp, hfp⟩
    refine ⟨p, hp, ?_⟩
    split at hfp
    · simp at hfp
    · rename_i b hb
      split at hfp
      · rename_i hle
        exact ⟨b, hb, hle, (Option.some.inj hfp).symm⟩
      · simp at hfp
  · rintro ⟨p, hp, b, hb, hle, hr⟩
    subst hr
    exact ⟨p, hp, by rw [hb]; simp [hle]⟩

theorem mem_contactRemindersPre (today : CivilDate) (people : List Person)
    (r : ContactReminder) :
    r ∈ contactRemindersPre today people ↔
      ∃ p ∈ people, ∃ f, p.contactFrequency = some f ∧ f ≠ 0 ∧
        ((∃ lc, p.lastContact = some lc ∧ getDaysSince today lc - f ≥ 0 ∧
            r = ⟨p, getDaysSince today lc, getDaysSince today lc - f⟩) ∨
         (p.lastContact = none ∧ r = ⟨p, -1, f⟩)) := by
  simp only [contactRemindersPre, List.mem_filterMap]
  constructor
  · rintro ⟨p, hp, hfp⟩
    refine ⟨p, hp, ?_⟩
    split at hfp
    · simp at hfp
    · rename_i f hf
      split at hfp
      · simp at hfp
      · rename_i hf0
        refine ⟨f, hf, hf0, ?_⟩
        split at hfp
        · rename_i lc hlc
          split at hfp
          · rename_i hge
            exact Or.inl ⟨lc, hlc, hge, (Option.some.inj hfp).symm⟩
          · simp at hfp
        · rename_i hlc
          exact Or.inr ⟨hlc, (Option.some.inj hfp).symm⟩
  · rintro ⟨p, hp, f, hf, hf0, hcase⟩
    refine ⟨p, hp, ?_⟩
    rw [hf]
    rcases hcase with ⟨lc, hlc, hge, hr⟩ | ⟨hlc, hr⟩
    · subst hr; simp [hf0, hlc, hge]
    · subst hr; simp [hf0, hlc]

/-- C7: for every birthday date, `getDaysUntilBirthday` returns 0 when this
year's (month, day) occurrence equals today and rolls to next year only when
the occurrence is strictly before today, whereas `getNextBirthdayDate` rolls
an occurrence exactly equal to today to next year — so the scheduled
occurrence date is always strictly in the future while the displayed
days-until may be 0. -/
theorem c7_daysUntil_vs_nextOccurrence (today birthday : CivilDate)
    (ht : Valid today) :
    (toDays today ≤ jsMkDate today.year (birthday.month - 1) birthday.day →
      getDaysUntilBirthday today birthday =
        jsMkDate today.year (birthday.month - 1) birthday.day -
          toDays today) ∧
    (jsMkDate today.year (birthday.month - 1) birthday.day = toDays today →
      getDaysUntilBirthday today birthday = 0) ∧
    (jsMkDate today.year (birthday.month - 1) birthday.day < toDays today →
      getDaysUntilBirthday today birthday =
        jsSetFullYear (jsMkDate today.year (birthday.month - 1) birthday.day)
          (today.year + 1) - toDays today) ∧
    (jsMkDate today.year (birthday.month - 1) birthday.day = toDays today →
      getNextBirthdayDate today birthday =
        jsSetFullYear (jsMkDate today.year (birthday.month - 1) birthday.day)
          (today.year + 1)) ∧
    toDays today < getNextBirthdayDate today birthday := by
  have hroll : ∀ z : Int,
      toDays today < jsSetFullYear z (today.year + 1) := by
    intro z
    have h1 := jsSetFullYear_ge_jan1 z today.year
    have h2 := civilToDays_jan1_succ today.year
    have h3 := toDays_le_dec31 today ht
    omega
  refine ⟨?_, ?_, ?_, ?_, ?_⟩
  · intro h
    unfold getDaysUntilBirthday
    simp only [if_neg (by omega : ¬ jsMkDate today.year (birthday.month - 1)
      birthday.day < toDays today)]
  · intro h
    unfold getDaysUntilBirthday
    simp only [if_neg (by omega : ¬ jsMkDate today.year (birthday.month - 1)
      birthday.day < toDays today)]
    omega
  · intro h
    unfold getDaysUntilBirthday
    simp only [if_pos h]
  · intro h
    unfold getNextBirthdayDate
    simp only [if_pos (by omega : jsMkDate today.year (birthday.month - 1)
      birthday.day ≤ toDays today)]
  · unfold getNextBirthdayDate
    by_cases h : jsMkDate today.year (birthday.month - 1) birthday.day ≤
        toDays today
    · simp only [if_pos h]
      exact hroll _
    · simp only [if_neg h]
      omega

/-- Witness for C7 at today = 2024-06-01 with birthday 1990-06-01: the
occurrence equals today, the displayed days-until is 0, and the scheduled
next occurrence is strictly in the future. -/
theorem c7_witness :
    getDaysUntilBirthday ⟨2024, 6, 1⟩ ⟨1990, 6, 1⟩ = 0 ∧
    toDays ⟨2024, 6, 1⟩ < getNextBirthdayDate ⟨2024, 6, 1⟩ ⟨1990, 6, 1⟩ := by
  have h := c7_daysUntil_vs_nextOccurrence ⟨2024, 6, 1⟩ ⟨1990, 6, 1⟩
    (by decide)
  exact ⟨h.2.1 (by decide), h.2.2.2.2⟩

/-- C8: for every list of people and every window, the
`getUpcomingBirthdays` output is sorted ascending by `daysUntil` with ties
preserving input order (the filter over each tie class equals that of the
pre-sort, input-ordered list), contains no entry with
`daysUntil > withinDays`, and contains no entry for a person without a known
birthday. -/
theorem c8_upcomingBirthdays_shape (today : CivilDate) (people : List Person)
    (withinDays : Int) :
    (getUpcomingBirthdays today people withinDays).Pairwise
      (fun a b => a.daysUntil ≤ b.daysUntil) ∧
    (∀ r ∈ getUpcomingBirthdays today people withinDays,
      r.daysUntil ≤ withinDays ∧ r.person.birthday ≠ none) ∧
    (∀ k : Int, (getUpcomingBirthdays today people withinDays).filter
        (fun r => decide (r.daysUntil = k)) =
      (birthdayRemindersPre today people withinDays).filter
        (fun r => decide (r.daysUntil = k))) := by
  refine ⟨sortByKey_pairwise _ _, ?_, fun k => sortByKey_filter _ _ k⟩
  intro r hr
  rw [getUpcomingBirthdays, mem_sortByKey,
    mem_birthdayRemindersPre] at hr
  obtain ⟨p, _, b, hb, hle, hr⟩ := hr
  subst hr
  simp [hb, hle]

/-- Witness for C8 with a single person whose birthday falls today. -/
theorem c8_witness :
    (getUpcomingBirthdays ⟨2024, 6, 1⟩
        [⟨"u1", "Alice", some ⟨1990, 6, 1⟩, none, none, none, none⟩]
        30).Pairwise (fun a b => a.daysUntil ≤ b.daysUntil) ∧
    ((⟨⟨"u1", "Alice", some ⟨1990, 6, 1⟩, none, none, none, none⟩, 0, 34⟩ :
        BirthdayReminder).daysUntil ≤ 30 ∧
      (⟨⟨"u1", "Alice", some ⟨1990, 6, 1⟩, none, none, none, none⟩, 0, 34⟩ :
        BirthdayReminder).person.birthday ≠ none) ∧
    (getUpcomingBirthdays ⟨2024, 6, 1⟩
        [⟨"u1", "Alice", some ⟨1990, 6, 1⟩, none, none, none, none⟩]
        30).filter (fun r => decide (r.daysUntil = 0)) =
      (birthdayRemindersPre ⟨2024, 6, 1⟩
        [⟨"u1", "Alice", some ⟨1990, 6, 1⟩, none, none, none, none⟩]
        30).filter (fun r => decide (r.daysUntil = 0)) := by
  have h := c8_upcomingBirthdays_shape ⟨2024, 6, 1⟩
    [⟨"u1", "Alice", some ⟨1990, 6, 1⟩, none, none, none, none⟩] 30
  exact ⟨h.1,
    h.2.1 ⟨⟨"u1", "Alice", some ⟨1990, 6, 1⟩, none, none, none, none⟩, 0, 34⟩
      (by decide),
    h.2.2 0⟩

/-- C2 counterexample: on 2024-06-01 a person born 1990-06-01 has
`daysUntil = 0` and the code reports age `calculateAge = 34` (the age turned
today), not `calculateAge + 1 = 35` as the claim states — the claim has the
two branches swapped. -/
theorem c2_counterexample :
    ¬ (∀ r ∈ getUpcomingBirthdays ⟨2024, 6, 1⟩
        [⟨"u1", "Alice", some ⟨1990, 6, 1⟩, none, none, none, none⟩] 30,
        r.age = if r.daysUntil = 0
          then calculateAge ⟨2024, 6, 1⟩ ⟨1990, 6, 1⟩ + 1
          else calculateAge ⟨2024, 6, 1⟩ ⟨1990, 6, 1⟩) := by
  decide

/-- C2 (amended): for every person in the derived birthday-reminder list,
the reported age equals `calculateAge(birthday)` when `daysUntil = 0` (the
age turned today, `calculateAge` not decrementing on the birthday itself)
and `calculateAge(birthday) + 1` (the age being turned at the upcoming
occurrence) when `daysUntil ≠ 0`. -/
theorem c2_reported_age (today : CivilDate) (people : List Person) (w : Int)
    (r : BirthdayReminder) (hr : r ∈ getUpcomingBirthdays today people w)
    (b : CivilDate) (hb : r.person.birthday = some b) :
    r.daysUntil = getDaysUntilBirthday today b ∧
    r.age = (if getDaysUntilBirthday today b = 0 then calculateAge today b
             else calculateAge today b + 1) := by
  rw [getUpcomingBirthdays, mem_sortByKey, mem_birthdayRemindersPre] at hr
  obtain ⟨p, _, b', hb', _, hrr⟩ := hr
  subst hrr
  simp only [] at hb
  rw [hb'] at hb
  cases Option.some.inj hb
  exact ⟨rfl, rfl⟩

/-- Witness for C2's amended theorem at today = 2024-06-01, birthday
1990-06-01 (daysUntil 0, reported age 34). -/
theorem c2_witness :
    (⟨⟨"u1", "Alice", some ⟨1990, 6, 1⟩, none, none, none, none⟩, 0, 34⟩ :
        BirthdayReminder).daysUntil =
      getDaysUntilBirthday ⟨2024, 6, 1⟩ ⟨1990, 6, 1⟩ ∧
    (⟨⟨"u1", "Alice", some ⟨1990, 6, 1⟩, none, none, none, none⟩, 0, 34⟩ :
        BirthdayReminder).age =
      (if getDaysUntilBirthday ⟨2024, 6, 1⟩ ⟨1990, 6, 1⟩ = 0
        then calculateAge ⟨2024, 6, 1⟩ ⟨1990, 6, 1⟩
        else calculateAge ⟨2024, 6, 1⟩ ⟨1990, 6, 1⟩ + 1) :=
  c2_reported_age ⟨2024, 6, 1⟩
    [⟨"u1", "Alice", some ⟨1990, 6, 1⟩, none, none, none, none⟩] 30
    ⟨⟨"u1", "Alice", some ⟨1990, 6, 1⟩, none, none, none, none⟩, 0, 34⟩
    (by decide) ⟨1990, 6, 1⟩ (by decide)

/-- C6: `getPeopleToContact` includes exactly the people with a configured
(nonzero) contact frequency whose `daysSince(lastContact) - frequency` is
nonnegative, plus unconditionally every never-contacted such person with
`daysOverdue` set to the frequency itself, and the output is sorted
descending by `daysOverdue`. -/
theorem c6_peopleToContact (today : CivilDate) (people : List Person) :
    (∀ p ∈ people, ∀ f : Int, p.contactFrequency = some f → f ≠ 0 →
      (∀ lc, p.lastContact = some lc →
        (getDaysSince today lc - f ≥ 0 ↔
          (⟨p, getDaysSince today lc, getDaysSince today lc - f⟩ :
            ContactReminder) ∈ getPeopleToContact today people)) ∧
      (p.lastContact = none →
        (⟨p, -1, f⟩ : ContactReminder) ∈ getPeopleToContact today people)) ∧
    (∀ r ∈ getPeopleToContact today people, r.person ∈ people ∧
      ∃ f : Int, r.person.contactFrequency = some f ∧ f ≠ 0 ∧
        ((∃ lc, r.person.lastContact = some lc ∧
            r.daysSinceContact = getDaysSince today lc ∧
            r.daysOverdue = r.daysSinceContact - f ∧ 0 ≤ r.daysOverdue) ∨
         (r.person.lastContact = none ∧ r.daysSinceContact = -1 ∧
            r.daysOverdue = f))) ∧
    (getPeopleToContact today people).Pairwise
      (fun a b => b.daysOverdue ≤ a.daysOverdue) := by
  refine ⟨?_, ?_, ?_⟩
  · intro p hp f hf hf0
    constructor
    · intro lc hlc
      rw [getPeopleToContact, mem_sortByKey, mem_contactRemindersPre]
      constructor
      · intro hge
        exact ⟨p, hp, f, hf, hf0, Or.inl ⟨lc, hlc, hge, rfl⟩⟩
      · rintro ⟨p', _, f', hf', _, hcase⟩
        rcases hcase with ⟨lc', hlc', hge', heq⟩ | ⟨hlc', heq⟩
        · have hpp : p = p' := congrArg ContactReminder.person heq
          subst hpp
          rw [hlc] at hlc'
          cases Option.some.inj hlc'
          rw [hf] at hf'
          cases Option.some.inj hf'
          have := congrArg ContactReminder.daysOverdue heq
          simp only [] at this
          omega
        · have hpp : p = p' := congrArg ContactReminder.person heq
          subst hpp
          rw [hlc] at hlc'
          cases hlc'
    · intro hlc
      rw [getPeopleToContact, mem_sortByKey, mem_contactRemindersPre]
      exact ⟨p, hp, f, hf, hf0, Or.inr ⟨hlc, rfl⟩⟩
  · intro r hr
    rw [getPeopleToContact, mem_sortByKey, mem_contactRemindersPre] at hr
    obtain ⟨p, hp, f, hf, hf0, hcase⟩ := hr
    rcases hcase with ⟨lc, hlc, hge, hrr⟩ | ⟨hlc, hrr⟩
    · subst hrr
      exact ⟨hp, f, hf, hf0, Or.inl ⟨lc, hlc, rfl, rfl, hge⟩⟩
    · subst hrr
      exact ⟨hp, f, hf, hf0, Or.inr ⟨hlc, rfl, rfl⟩⟩
  · have h := sortByKey_pairwise (fun r : ContactReminder => -r.daysOverdue)
      (contactRemindersPre today people)
    exact h.imp (fun hab => by omega)

/-- Witness for C6 matching the spec's worked example (frequency 14): a
never-contacted person appears with daysOverdue 14, a person contacted 20
days ago appears with daysOverdue 6, and a person contacted 5 days ago fails
the inclusion inequality. -/
theorem c6_witness :
    ((⟨⟨"u1", "Ann", none, none, some 14, none, none⟩, -1, 14⟩ :
        ContactReminder) ∈ getPeopleToContact ⟨2024, 7, 1⟩
      [⟨"u1", "Ann", none, none, some 14, none, none⟩,
       ⟨"u2", "Bob", none, some ⟨2024, 6, 11⟩, some 14, none, none⟩,
       ⟨"u3", "Cyd", none, some ⟨2024, 6, 26⟩, some 14, none, none⟩]) ∧
    ((⟨⟨"u2", "Bob", none, some ⟨2024, 6, 11⟩, some 14, none, none⟩, 20, 6⟩ :
        ContactReminder) ∈ getPeopleToContact ⟨2024, 7, 1⟩
      [⟨"u1", "Ann", none, none, some 14, none, none⟩,
       ⟨"u2", "Bob", none, some ⟨2024, 6, 11⟩, some 14, none, none⟩,
       ⟨"u3", "Cyd", none, some ⟨2024, 6, 26⟩, some 14, none, none⟩]) ∧
    ¬ (getDaysSince ⟨2024, 7, 1⟩ ⟨2024, 6, 26⟩ - 14 ≥ 0) := by
  have h := c6_peopleToContact ⟨2024, 7, 1⟩
    [⟨"u1", "Ann", none, none, some 14, none, none⟩,
     ⟨"u2", "Bob", none, some ⟨2024, 6, 11⟩, some 14, none, none⟩,
     ⟨"u3", "Cyd", none, some ⟨2024, 6, 26⟩, some 14, none, none⟩]
  refine ⟨(h.1 ⟨"u1", "Ann", none, none, some 14, none, none⟩ (by decide) 14
      rfl (by decide)).2 rfl, ?_, by decide⟩
  have hb := (h.1 ⟨"u2", "Bob", none, some ⟨2024, 6, 11⟩, some 14, none, none⟩
      (by decide) 14 rfl (by decide)).1 ⟨2024, 6, 11⟩ rfl
  have h20 : getDaysSince ⟨2024, 7, 1⟩ ⟨2024, 6, 11⟩ = 20 := by decide
  have := hb.mp (by rw [h20]; decide)
  rw [h20] at this
  exact this

/-- C10: a person with a configured (nonzero) contact frequency and no known
last contact always appears in the output, and every reminder produced for
such a person carries the concrete sentinel `daysSinceContact = -1` and
`daysOverdue = frequency` (no infinite or missing value escapes, even though
the internal comparison treats the gap as infinite to force inclusion). -/
theorem c10_neverContacted_sentinel (today : CivilDate)
    (people : List Person) (p : Person) (hp : p ∈ people) (f : Int)
    (hf : p.contactFrequency = some f) (hf0 : f ≠ 0)
    (hlc : p.lastContact = none) :
    (⟨p, -1, f⟩ : ContactReminder) ∈ getPeopleToContact today people ∧
    (∀ r ∈ getPeopleToContact today people, r.person = p →
      r.daysSinceContact = -1 ∧ r.daysOverdue = f) := by
  constructor
  · rw [getPeopleToContact, mem_sortByKey, mem_contactRemindersPre]
    exact ⟨p, hp, f, hf, hf0, Or.inr ⟨hlc, rfl⟩⟩
  · intro r hr hrp
    rw [getPeopleToContact, mem_sortByKey, mem_contactRemindersPre] at hr
    obtain ⟨p', _, f', hf', _, hcase⟩ := hr
    rcases hcase with ⟨lc, hlc', _, hrr⟩ | ⟨_, hrr⟩
    · subst hrr
      simp only [] at hrp
      subst hrp
      rw [hlc] at hlc'
      cases hlc'
    · subst hrr
      simp only [] at hrp
      subst hrp
      rw [hf] at hf'
      cases Option.some.inj hf'
      exact ⟨rfl, rfl⟩

/-- Witness for C10: a never-contacted person with frequency 14 appears with
the sentinel -1 and daysOverdue 14. -/
theorem c10_witness :
    (⟨⟨"u1", "Ann", none, none, some 14, none, none⟩, -1, 14⟩ :
        ContactReminder) ∈ getPeopleToContact ⟨2024, 7, 1⟩
      [⟨"u1", "Ann", none, none, some 14, none, none⟩] ∧
    (∀ r ∈ getPeopleToContact ⟨2024, 7, 1⟩
        [⟨"u1", "Ann", none, none, some 14, none, none⟩],
      r.person = ⟨"u1", "Ann", none, none, some 14, none, none⟩ →
      r.daysSinceContact = -1 ∧ r.daysOverdue = 14) :=
  c10_neverContacted_sentinel ⟨2024, 7, 1⟩
    [⟨"u1", "Ann", none, none, some 14, none, none⟩]
    ⟨"u1", "Ann", none, none, some 14, none, none⟩ (by decide) 14 rfl
    (by decide) rfl

/-- C1 counterexample: the birthday is December 20; the occurrence scheduled
by the code for 2024 is D = 2024-12-20, but when its completion is processed
late, on 2025-01-02, the handler schedules 2026-12-20 — not
(D.year + 1, D.month, D.day) = 2025-12-20 — so a year is skipped
(double-increment).  The scheduled date is the processing year + 1, not the
occurrence year + 1. -/
theorem c1_counterexample :
    getNextBirthdayDate ⟨2024, 6, 1⟩ ⟨1990, 12, 20⟩ = civilToDays 2024 12 20 ∧
    nextYearBirthdayOnCompletion ⟨2025, 1, 2⟩ ⟨1990, 12, 20⟩ ≠
      civilToDays 2025 12 20 ∧
    nextYearBirthdayOnCompletion ⟨2025, 1, 2⟩ ⟨1990, 12, 20⟩ =
      civilToDays 2026 12 20 ∧
    (handleBirthdayTaskCompleted ⟨2025, 1, 2⟩ "Alice" ⟨1990, 12, 20⟩
        ⟨[]⟩).pages.map Page.name = ["2026-12-20"] := by
  refine ⟨by decide, by decide, by decide, by decide⟩

/-- C1 (amended): processing a birthday-task completion schedules the new
task at calendar date (processingYear + 1, birthday.month, birthday.day);
when the completion is processed in the same calendar year as the completed
occurrence D this equals (D.year + 1, D.month, D.day), but processing in a
later calendar year schedules a later year. -/
theorem c1_completion_schedules_next_year (today d birthday : CivilDate)
    (h1 : 1 ≤ birthday.month) (h2 : birthday.month ≤ 12)
    (hy : today.year = d.year) (hm : d.month = birthday.month)
    (hd : d.day = birthday.day) :
    nextYearBirthdayOnCompletion today birthday =
      civilToDays (d.year + 1) d.month d.day := by
  unfold nextYearBirthdayOnCompletion
  rw [jsMkDate_eq_civil _ _ _ h1 h2, hy, ← hm, ← hd]

/-- Witness for C1's amended theorem: completion of the 2024-12-20
occurrence processed on 2024-12-20 (same year) schedules 2025-12-20. -/
theorem c1_witness :
    nextYearBirthdayOnCompletion ⟨2024, 12, 20⟩ ⟨1990, 12, 20⟩ =
      civilToDays (2024 + 1) 12 20 :=
  c1_completion_schedules_next_year ⟨2024, 12, 20⟩ ⟨2024, 12, 20⟩
    ⟨1990, 12, 20⟩ (by decide) (by decide) rfl rfl rfl

/-- C3: the parser does not return null on the invalid calendar value
"13/13/2020"; the DD/MM/YYYY branch matches first and `new Date(2020, 12,
13)` silently wraps month 13 to January 2021, yielding the valid date
2021-01-13 (independently of the native-parse fallback, which is never
reached). -/
theorem c3_invalid_month_wraps :
    (∀ native, parseBirthdayInput native ("13/13/2020".toList) =
      some (civilToDays 2021 1 13)) ∧
    daysToCivil (civilToDays 2021 1 13) = ⟨2021, 1, 13⟩ :=
  ⟨fun _ => rfl, by decide⟩

/-- C4: the MM/DD/YYYY disambiguation branch is unreachable — its separator
class is a subset of the DD/MM/YYYY branch tried first — so "04/15/1988"
(first ≤ 12, second > 12) is not parsed as the US date 1988-04-15: the
DD/MM/YYYY branch builds `new Date(1988, 14, 4)`, which wraps to
1989-03-04.  The both-at-most-12 default "05/04/1988" does yield
day-month-year 1988-04-05 as claimed. -/
theorem c4_us_disambiguation_unreachable :
    (∀ native, parseBirthdayInput native ("04/15/1988".toList) =
      some (civilToDays 1989 3 4)) ∧
    civilToDays 1989 3 4 ≠ civilToDays 1988 4 15 ∧
    (∀ native, parseBirthdayInput native ("05/04/1988".toList) =
      some (civilToDays 1988 4 5)) :=
  ⟨fun _ => rfl, by decide, fun _ => rfl⟩

/-- C9: `createPerson` with an empty (after trimming) or missing name, or
with a name whose page already exists, returns a structured failure result
(success false plus an error message) and leaves the store unchanged — no
page creation, tag, property write or task creation happens. -/
theorem c9_createPerson_validation (today : CivilDate) (data : NewPersonData)
    (st : Store) :
    (jsTrim data.name = "" →
      createPerson today data st =
        ({ success := false, error := some "Name is required" }, st)) ∧
    (jsTrim data.name ≠ "" → hasPage st (jsTrim data.name) = true →
      createPerson today data st =
        ({ success := false,
           error := some ("A page named \"" ++ jsTrim data.name ++
             "\" already exists") }, st)) := by
  constructor
  · intro h
    simp [createPerson, h]
  · intro h1 h2
    simp [createPerson, h1, h2]

/-- Witness for C9: a whitespace-only name fails with "Name is required"
and leaves the store untouched; a duplicate name fails with the duplicate
message and leaves the store untouched. -/
theorem c9_witness :
    createPerson ⟨2024, 6, 1⟩ ⟨" ", none, none, none, none⟩ ⟨[]⟩ =
      ({ success := false, error := some "Name is required" }, ⟨[]⟩) ∧
    createPerson ⟨2024, 6, 1⟩ ⟨"Alice", none, none, none, none⟩
        ⟨[⟨"Alice", false, [], [], []⟩]⟩ =
      ({ success := false,
         error := some "A page named \"Alice\" already exists" },
       ⟨[⟨"Alice", false, [], [], []⟩]⟩) := by
  have h1 := c9_createPerson_validation ⟨2024, 6, 1⟩
    ⟨" ", none, none, none, none⟩ ⟨[]⟩
  have h2 := c9_createPerson_validation ⟨2024, 6, 1⟩
    ⟨"Alice", none, none, none, none⟩ ⟨[⟨"Alice", false, [], [], []⟩]⟩
  exact ⟨h1.1 (by decide), by
    have := h2.2 (by decide) (by decide)
    simpa using this⟩

theorem isPrefixOf_append_self (pat suf : List Char) :
    List.isPrefixOf pat (pat ++ suf) = true := by
  simp

theorem containsSeq_of_prefix (pat s : List Char)
    (h : List.isPrefixOf pat s = true) : containsSeq pat s = true := by
  cases s with
  | nil =>
    cases pat with
    | nil => rfl
    | cons c cs => simp [List.isPrefixOf] at h
  | cons c rest => simp [containsSeq, h]

/-- A list containing `pat` contiguously passes the substring test. -/
theorem containsSeq_split (pre pat suf : List Char) :
    containsSeq pat (pre ++ (pat ++ suf)) = true := by
  induction pre with
  | nil => exact containsSeq_of_prefix _ _ (isPrefixOf_append_self pat suf)
  | cons p pre' ih => simp [containsSeq, ih]

/-- Splitting `name ++ ']' :: rest` at the first `]` when `name` is
`]`-free. -/
theorem takeWhile_no_brk (name rest : List Char)
    (h : ∀ c ∈ name, ¬(c = ']')) :
    (name ++ ']' :: rest).takeWhile (fun c => !(c == ']')) = name ∧
    (name ++ ']' :: rest).dropWhile (fun c => !(c == ']')) = ']' :: rest := by
  induction name with
  | nil => simp
  | cons c cs ih =>
    have hc : (c == ']') = false := by
      have := h c (List.mem_cons_self c cs)
      simpa using this
    have ih' := ih (fun x hx => h x (List.mem_cons_of_mem c hx))
    simp [List.takeWhile_cons, List.dropWhile_cons, hc, ih'.1, ih'.2]

/-- The extraction regex succeeds at a position starting the literal
pattern `[[name]]'s Birthday` (straight apostrophe, nonempty `]`-free
name). -/
theorem tryBirthdayMatch_pattern (name t : List Char) (hne : name ≠ [])
    (hq : ∀ c ∈ name, ¬(c = ']')) :
    tryBirthdayMatch ('[' :: '[' ::
        (name ++ ']' :: ']' :: straightApos :: ("s Birthday".toList ++ t))) =
      some name := by
  have hsplit := takeWhile_no_brk name
    (']' :: straightApos :: ("s Birthday".toList ++ t)) hq
  have hni : name.isEmpty = false := by
    cases name with
    | nil => exact absurd rfl hne
    | cons c cs => rfl
  unfold tryBirthdayMatch
  simp only [hsplit.1, hsplit.2]
  simp [hni, isPrefixOf_append_self]

/-- If one attempt of the extraction regex succeeds somewhere, the leftmost
scan finds some match. -/
theorem extract_isSome_of_match (pre tail : List Char)
    (h : (tryBirthdayMatch tail).isSome = true) :
    (extractBirthdayPersonName (pre ++ tail)).isSome = true := by
  induction pre with
  | nil =>
    cases tail with
    | nil => simp [tryBirthdayMatch] at h
    | cons c rest =>
      rw [List.nil_append]
      simp only [extractBirthdayPersonName]
      cases htm : tryBirthdayMatch (c :: rest) with
      | some n => simp [htm]
      | none => rw [htm] at h; simp at h
  | cons p pre' ih =>
    rw [List.cons_append]
    simp only [extractBirthdayPersonName]
    cases htm : tryBirthdayMatch (p :: (pre' ++ tail)) with
    | some n => simp [htm]
    | none => simpa [htm] using ih

/-- C5 counterexample: a completed birthday task written with the CURLY
apostrophe does not trigger the handler — `isBirthdayTask` only checks the
straight-apostrophe substring (and the regex class `['']` holds only the
straight apostrophe) — although the claim says both apostrophes trigger. -/
theorem c5_counterexample :
    ("DONE [[Alice]]’s Birthday!").toList =
      "DONE ".toList ++ "[[".toList ++ "Alice".toList ++ "]]".toList ++
        "’s Birthday!".toList ∧
    birthdayCompletionTriggers ("DONE [[Alice]]’s Birthday!").toList =
      false := by
  exact ⟨rfl, by decide⟩

/-- C5 (amended): the Scheduled→Completed transition triggers for every
completed (DONE-prefixed) task whose content contains the pattern
`[[<Name>]]'s Birthday` with the STRAIGHT apostrophe (nonempty `]`-free
name); the curly-apostrophe variant does not trigger. -/
theorem c5_completion_trigger (content pre name suf : List Char)
    (hc : content =
      pre ++ "[[".toList ++ name ++ "]]'s Birthday".toList ++ suf)
    (hne : name ≠ []) (hnb : ∀ c ∈ name, ¬(c = ']'))
    (hdone : List.isPrefixOf ("DONE".toList) content = true) :
    birthdayCompletionTriggers content = true := by
  subst hc
  have hbr : ("]]'s Birthday".toList : List Char) =
      ']' :: ']' :: straightApos :: "s Birthday".toList := by decide
  have e1 : pre ++ "[[".toList ++ name ++ "]]'s Birthday".toList ++ suf
      = (pre ++ "[[".toList ++ name ++ [']', ']']) ++
        ("'s Birthday".toList ++ suf) := by
    rw [hbr]
    have hap : (']' :: ']' :: straightApos :: "s Birthday".toList :
        List Char) = [']', ']'] ++ "'s Birthday".toList := by decide
    rw [hap]
    simp [List.append_assoc]
  have e2 : pre ++ "[[".toList ++ name ++ "]]'s Birthday".toList ++ suf
      = pre ++ ("[[".toList ++
        (name ++ "]]'s Birthday".toList ++ suf)) := by
    simp [List.append_assoc]
  have e3 : pre ++ "[[".toList ++ name ++ "]]'s Birthday".toList ++ suf
      = pre ++ ('[' :: '[' ::
        (name ++ ']' :: ']' :: straightApos ::
          ("s Birthday".toList ++ suf))) := by
    rw [hbr]
    simp [List.append_assoc]
  have hA1 : containsSeq ("'s Birthday".toList)
      (pre ++ "[[".toList ++ name ++ "]]'s Birthday".toList ++ suf) = true := by
    rw [e1]; exact containsSeq_split _ _ _
  have hA2 : containsSeq ("[[".toList)
      (pre ++ "[[".toList ++ name ++ "]]'s Birthday".toList ++ suf) = true := by
    rw [e2]; exact containsSeq_split _ _ _
  have hB : (extractBirthdayPersonName
      (pre ++ "[[".toList ++ name ++ "]]'s Birthday".toList ++ suf)).isSome =
        true := by
    rw [e3]
    refine extract_isSome_of_match _ _ ?_
    rw [tryBirthdayMatch_pattern name suf hne hnb]
    rfl
  unfold birthdayCompletionTriggers isBirthdayTask
  rw [hA1, hA2, hdone, hB]
  rfl

/-- Witness for C5's amended theorem: a straight-apostrophe completed
birthday task triggers the handler. -/
theorem c5_witness :
    birthdayCompletionTriggers ("DONE [[Alice]]'s Birthday!").toList =
      true :=
  c5_completion_trigger ("DONE [[Alice]]'s Birthday!").toList
    ("DONE ".toList) ("Alice".toList) ("!".toList) (by decide)
    (by decide) (by decide) (by decide)

end PeopleManager
